import Mathlib

/-!
Verification development for the Bluestreak streak-computation engine
(`src/unnamed/part_000`, the variant of `content.js` that the design
document describes: it contains `checkRecentPostsForToday`, the
yesterday-first `calculateStreak`, the `isRefreshing` single-flight guard
and the cache-clearing `refreshStreak`).

Modelling conventions:
* A post is abstracted to the UTC calendar day of its `indexedAt`
  timestamp, represented as an `Int` day number; two timestamps fall on
  the same day iff these numbers are equal (the source compares the
  formatted UTC date strings, which is the same equivalence).
* The network is an oracle `Net`: given the index of the fetch (a
  logical clock that counts every issued request), the actor handle, the
  `limit` parameter and the optional continuation cursor, it returns
  either a page or a failure.  A failure stands for both a
  `NetworkError` from `fetchWithTimeout` and a `response.json()` parse
  failure, which the source treats identically (both are caught by the
  same retry handler).
* Asynchronous effects are threaded explicitly: the state records the
  memoization cache, the fetch clock, and the DOM elements the widget
  owns.  Backoff sleeps are recorded as a list of delays in seconds.
* Errors are `Except Unit` values; fuel arguments make the source's
  unbounded `while` loops total, with `Option.none` standing for a
  computation that would not have terminated within the given fuel.
-/

namespace Bluestreak

/-- One feed page of the `app.bsky.feed.getAuthorFeed` response:
the UTC days of the posts in `feed` (most recent first) and the
optional continuation cursor. -/
structure Page where
  feed : List Int
  cursor : Option Nat
deriving Repr, DecidableEq

/-- Result of a single page fetch: a page, or a network/parse failure. -/
inductive FetchResult where
  | err : FetchResult
  | ok : Page → FetchResult
deriving Repr, DecidableEq

/-- The network oracle: fetch index, actor handle, `limit` parameter,
optional cursor. -/
abbrev Net := Nat → String → Nat → Option Nat → FetchResult

/-- The session memoization cache `this.cache`, keyed by
(handle, UTC day) exactly as the source keys it by the string
`handle + "-" + formatted day`. -/
abbrev Cache := List ((String × Int) × Bool)

/-- `this.cache.has / this.cache.get` combined. -/
def lookupCache (c : Cache) (h : String) (d : Int) : Option Bool :=
  (c.find? (fun e => decide (e.1 = (h, d)))).map (fun e => e.2)

/-- The DOM elements the extension owns: the `.streak-main-container`
(with the streak count and posted-today flag it displays), the
`.streak-container.loading` indicator, and the `.streak-error` element. -/
structure Dom where
  container : Option (Nat × Bool)
  loading : Bool
  errorShown : Bool
deriving Repr, DecidableEq

/-- State visible to the low-level routines: the memoization cache, the
fetch clock (number of network requests issued so far), and the DOM. -/
structure LSt where
  cache : Cache
  time : Nat
  dom : Dom
deriving Repr, DecidableEq

/-- The persisted `bluestreak` record in `localStorage`. -/
structure StreakRecord where
  streakDate : Int
  streakNumber : Nat
deriving Repr, DecidableEq

/-- Full manager state: low-level state plus the persisted record
(`none` = key absent), the `isRefreshing` single-flight flag and the
pending debounced task. -/
structure MSt where
  lst : LSt
  storage : Option StreakRecord
  isRefreshing : Bool
  pending : Bool
deriving Repr, DecidableEq

/-- `showError`: removes any existing `.streak-error` element, then
appends a fresh one iff the Help link is present in the page. -/
def showError (helpPresent : Bool) (d : Dom) : Dom :=
  { d with errorShown := helpPresent }

/-- `removeExistingStreakContainers`: removes the main container, the
loading indicator and any error element. -/
def removeExistingStreakContainers (_ : Dom) : Dom :=
  { container := none, loading := false, errorShown := false }

/-- Appending `createLoadingIndicator()`. -/
def createLoadingIndicator (d : Dom) : Dom :=
  { d with loading := true }

/-- `createStreakDisplay container streak postedToday`. -/
def createStreakDisplay (d : Dom) (n : Nat) (p : Bool) : Dom :=
  { d with container := some (n, p) }

/-- The pagination `while (!foundPost)` loop inside `getPostsForDay`
(lines 70-94 of the source): fetch the page at the current cursor with
`limit = 100`; a fetch or parse failure aborts with an error (to be
caught by the retry handler); an empty or absent feed breaks with
`false`; a post on the target day yields `true` with no further fetch;
otherwise follow the cursor, or break with `false` when the cursor is
absent.  The first component of the result is the fetch clock after the
loop. -/
def pageLoop (net : Net) (h : String) (target : Int) :
    Nat → Nat → Option Nat → Option (Nat × Except Unit Bool)
  | 0, _, _ => none
  | fuel + 1, t, c =>
    match net t h 100 c with
    | .err => some (t + 1, .error ())
    | .ok p =>
      if p.feed.isEmpty then some (t + 1, .ok false)
      else if p.feed.contains target then some (t + 1, .ok true)
      else
        match p.cursor with
        | some c2 => pageLoop net h target fuel (t + 1) (some c2)
        | none => some (t + 1, .ok false)

/-- The retry structure of `getPostsForDay` (lines 99-105): a failure of
the pagination loop with `retries > 0` sleeps `2 ^ (3 - retries)`
seconds and re-runs the whole lookup from scratch (the recursive call
`getPostsForDay(handle, date, retries - 1)` starts over with
`cursor = null`); with `retries = 0` the error propagates.  The source's
recursive call also re-checks the cache, but within one top-level call
the key can only have been written by this call's own success, so that
re-check is a guaranteed miss and is elided here.  The middle component
of the result is the chronological list of backoff delays in seconds. -/
def getPostsRetry (net : Net) (h : String) (target : Int) (fuel : Nat) :
    Nat → Nat → Option (Nat × List Nat × Except Unit Bool)
  | t, 0 =>
    match pageLoop net h target fuel t none with
    | none => none
    | some (t2, .ok b) => some (t2, [], .ok b)
    | some (t2, .error e) => some (t2, [], .error e)
  | t, r + 1 =>
    match pageLoop net h target fuel t none with
    | none => none
    | some (t2, .ok b) => some (t2, [], .ok b)
    | some (t2, .error _) =>
      match getPostsRetry net h target fuel t2 r with
      | none => none
      | some (t3, ds, res) => some (t3, 2 ^ (3 - (r + 1)) :: ds, res)

/-- `getPostsForDay(handle, date, retries = 3)`: serve the memoized
boolean if the (handle, day) pair is cached; otherwise run the paginated
lookup with the retry wrapper, memoize the boolean on success, and leave
the cache untouched when the error propagates. -/
def getPostsForDay (net : Net) (fuel : Nat) (l : LSt) (h : String) (d : Int) :
    Option (LSt × List Nat × Except Unit Bool) :=
  match lookupCache l.cache h d with
  | some b => some (l, [], .ok b)
  | none =>
    match getPostsRetry net h d fuel l.time 3 with
    | none => none
    | some (t2, ds, .ok b) =>
      some ({ l with cache := ((h, d), b) :: l.cache, time := t2 }, ds, .ok b)
    | some (t2, ds, .error e) => some ({ l with time := t2 }, ds, .error e)

/-- The `while (true)` counting loop of `calculateStreak` (lines
123-133): look the current day up, stop with the count so far on a
missing day, increment and step one day back on a hit; a lookup error
triggers `showError` and propagates. -/
def calcLoop (helpPresent : Bool) (net : Net) (pf : Nat) (h : String) :
    Nat → LSt → Int → Option (LSt × Except Unit Nat)
  | 0, _, _ => none
  | fuel + 1, l, day =>
    match getPostsForDay net pf l h day with
    | none => none
    | some (l2, _, .error e) =>
      some ({ l2 with dom := showError helpPresent l2.dom }, .error e)
    | some (l2, _, .ok false) => some (l2, .ok 0)
    | some (l2, _, .ok true) =>
      match calcLoop helpPresent net pf h fuel l2 (day - 1) with
      | none => none
      | some (l3, .error e) => some (l3, .error e)
      | some (l3, .ok k) => some (l3, .ok (k + 1))

/-- `calculateStreak(handle)` (lines 108-136): first evaluate yesterday
(`today - 1`); without a post there return 0 at once (this initial
lookup is outside the loop's try/catch, so its error propagates without
the inner `showError`); otherwise run the counting loop starting again
at yesterday (whose lookup is now a cache hit). -/
def calculateStreak (helpPresent : Bool) (net : Net) (pf cf : Nat)
    (h : String) (today : Int) (l : LSt) : Option (LSt × Except Unit Nat) :=
  match getPostsForDay net pf l h (today - 1) with
  | none => none
  | some (l2, _, .error e) => some (l2, .error e)
  | some (l2, _, .ok false) => some (l2, .ok 0)
  | some (l2, _, .ok true) => calcLoop helpPresent net pf h cf l2 (today - 1)

/-- `checkRecentPostsForToday(handle)` (lines 286-307): one fetch with
`limit = 5` and no cursor, no retry; on success, true iff some returned
post falls on the current UTC day; any fetch or parse failure yields
`false`. -/
def checkRecentPostsForToday (net : Net) (l : LSt) (h : String)
    (today : Int) : LSt × Bool :=
  match net l.time h 5 none with
  | .err => ({ l with time := l.time + 1 }, false)
  | .ok p => ({ l with time := l.time + 1 }, p.feed.contains today)

/-- Environment the orchestrator reads from the page: whether the Help
link anchor is present, and the handle resolved by `getProfile` (`none`
when the profile link is missing and `getProfile` throws). -/
structure Env where
  helpPresent : Bool
  profile : Option String
deriving Repr, DecidableEq

/-- The `updateFunc` body of `updateOrInsertStreakInfo` (lines 197-235):
resolve the Help link and the handle (failures are caught and shown);
outside a refresh, replace the widgets by the loading indicator; compute
`hasPostedToday` via the today check, then the historical streak; add 1
when today qualifies; overwrite the persisted record wholesale; replace
the widgets by the fresh display.  A streak-computation error is caught
and shown, leaving the persisted record untouched. -/
def updateFunc (env : Env) (net : Net) (pf cf : Nat) (today : Int)
    (m : MSt) : Option MSt :=
  if env.helpPresent = false then
    some { m with lst := { m.lst with dom := showError false m.lst.dom } }
  else
    match env.profile with
    | none => some { m with lst := { m.lst with dom := showError true m.lst.dom } }
    | some handle =>
      let l0 : LSt :=
        if m.isRefreshing then m.lst
        else { m.lst with
               dom := createLoadingIndicator
                 (removeExistingStreakContainers m.lst.dom) }
      let chk := checkRecentPostsForToday net l0 handle today
      match calculateStreak true net pf cf handle today chk.1 with
      | none => none
      | some (l2, .error _) =>
        some { m with lst := { l2 with dom := showError true l2.dom } }
      | some (l2, .ok k) =>
        let total := k + (if chk.2 then 1 else 0)
        some { m with
               lst := { l2 with
                        dom := createStreakDisplay
                          (removeExistingStreakContainers l2.dom) total chk.2 },
               storage := some ⟨today, total⟩ }

/-- `updateOrInsertStreakInfo` (lines 192-242): during a refresh the
update body runs immediately; otherwise it is debounced — any pending
scheduled run is cancelled and a fresh 300ms task is scheduled. -/
def updateOrInsertStreakInfo (env : Env) (net : Net) (pf cf : Nat)
    (today : Int) (m : MSt) : Option MSt :=
  if m.isRefreshing then updateFunc env net pf cf today m
  else some { m with pending := true }

/-- `refreshStreak` (lines 154-190): dropped at once when `isRefreshing`
is already set; otherwise set the flag, and — provided the Help link and
an existing `.streak-main-container` are found — clear the memoization
cache and remove the persisted record, then run the update sequence
immediately; the flag is reset in the `finally` block.  A missing Help
link is caught and shown; a missing container skips the refresh body. -/
def refreshStreak (env : Env) (net : Net) (pf cf : Nat) (today : Int)
    (m : MSt) : Option MSt :=
  if m.isRefreshing then some m
  else
    let s : MSt := { m with isRefreshing := true }
    if env.helpPresent = false then
      let l1 : LSt := { s.lst with dom := showError false s.lst.dom }
      some { s with lst := l1, isRefreshing := false }
    else
      match s.lst.dom.container with
      | none => some { s with isRefreshing := false }
      | some _ =>
        let l1 : LSt := { s.lst with cache := [] }
        let s1 : MSt := { s with lst := l1, storage := none }
        match updateOrInsertStreakInfo env net pf cf today s1 with
        | none => none
        | some s2 => some { s2 with isRefreshing := false }

/-! ### Network oracles used in the theorems -/

/-- A reliable feed that serves the whole post history as a single page
with no continuation cursor, regardless of when it is asked. -/
def netOfPosts (posts : List Int) : Net :=
  fun _ _ _ _ => .ok ⟨posts, none⟩

/-- A reliable feed paginated into the given pages: the request without
a cursor is served page 0, the request with cursor `k` is served page
`k`, and the cursor is present exactly while further pages remain. -/
def chunkNet (pages : List (List Int)) : Net :=
  fun _ _ _ c =>
    let i := c.getD 0
    .ok ⟨pages.getD i [], if i + 1 < pages.length then some (i + 1) else none⟩

/-- A network that fails every fetch. -/
def netFail : Net := fun _ _ _ _ => .err

/-- Failure schedule for the retry-budget counterexample: fetches 0, 2,
4, 6 fail; fetches 1, 3, 5 are served a non-matching page with a
continuation cursor; from fetch 7 on the feed is exhausted. -/
def netC4 : Net :=
  fun t _ _ _ =>
    if 7 ≤ t then .ok ⟨[], none⟩
    else if t % 2 = 0 then .err
    else .ok ⟨[99], some 1⟩

/-- Cursor-sensitive oracle for the restart theorem: fetch 0 is served a
non-matching first page with cursor 9, fetch 1 fails, and afterwards a
request WITHOUT a cursor is served a page containing day 0 while a
request that resumed at cursor 9 would be served an empty page. -/
def netC9 : Net :=
  fun t _ _ c =>
    if t = 0 then .ok ⟨[7], some 9⟩
    else if t = 1 then .err
    else
      match c with
      | none => .ok ⟨[0], none⟩
      | some _ => .ok ⟨[], none⟩

/-- Modelled from the spec: the retry combinator the design document
describes in place of the source's lookup-level retry — "Each page fetch
is retried on NetworkError up to 3 additional attempts with backoff
delay 2^attempt seconds (1s, 2s, 4s) between attempts", i.e. each
individual page fetch owns a fresh budget of 3 retries and the
continuation cursor survives the failure. -/
def specFetchPage (net : Net) (h : String) (c : Option Nat) :
    Nat → Nat → Nat × List Nat × FetchResult
  | t, 0 => (t + 1, [], net t h 100 c)
  | t, r + 1 =>
    match net t h 100 c with
    | .ok p => (t + 1, [], .ok p)
    | .err =>
      match specFetchPage net h c (t + 1) r with
      | (t2, ds, res) => (t2, 2 ^ (3 - (r + 1)) :: ds, res)

/-- Modelled from the spec: the Day-Post Index pagination with the
per-page-fetch retry of `specFetchPage` (claim C4's reading), used only
to exhibit where it diverges from the source's lookup-level retry. -/
def specPageLoop (net : Net) (h : String) (target : Int) :
    Nat → Nat → Option Nat → Option (Nat × List Nat × Except Unit Bool)
  | 0, _, _ => none
  | fuel + 1, t, c =>
    match specFetchPage net h c t 3 with
    | (t2, ds, .err) => some (t2, ds, .error ())
    | (t2, ds, .ok p) =>
      if p.feed.isEmpty then some (t2, ds, .ok false)
      else if p.feed.contains target then some (t2, ds, .ok true)
      else
        match p.cursor with
        | some c2 =>
          (specPageLoop net h target fuel t2 (some c2)).map
            (fun x => (x.1, ds ++ x.2.1, x.2.2))
        | none => some (t2, ds, .ok false)

/-! ### Helper lemmas -/

theorem lookupCache_nil (h : String) (d : Int) : lookupCache [] h d = none := by
  simp [lookupCache]

theorem lookupCache_cons_self (c : Cache) (h : String) (d : Int) (b : Bool) :
    lookupCache (((h, d), b) :: c) h d = some b := by
  simp [lookupCache]

theorem getPostsRetry_succ (net : Net) (h : String) (target : Int)
    (fuel t r : Nat) :
    getPostsRetry net h target fuel t (r + 1) =
      match pageLoop net h target fuel t none with
      | none => none
      | some (t2, .ok b) => some (t2, [], .ok b)
      | some (t2, .error _) =>
        (getPostsRetry net h target fuel t2 r).map
          (fun x => (x.1, 2 ^ (3 - (r + 1)) :: x.2.1, x.2.2)) := by
  cases hp : pageLoop net h target fuel t none with
  | none => simp [getPostsRetry, hp]
  | some v =>
    obtain ⟨t2, res⟩ := v
    cases res with
    | ok b => simp [getPostsRetry, hp]
    | error e =>
      cases hq : getPostsRetry net h target fuel t2 r with
      | none => simp [getPostsRetry, hp, hq]
      | some w => simp [getPostsRetry, hp, hq]

theorem getPostsRetry_zero (net : Net) (h : String) (target : Int)
    (fuel t : Nat) :
    getPostsRetry net h target fuel t 0 =
      match pageLoop net h target fuel t none with
      | none => none
      | some (t2, .ok b) => some (t2, [], .ok b)
      | some (t2, .error e) => some (t2, [], .error e) := by
  cases hp : pageLoop net h target fuel t none with
  | none => simp [getPostsRetry, hp]
  | some v =>
    obtain ⟨t2, res⟩ := v
    cases res with
    | ok b => simp [getPostsRetry, hp]
    | error e => simp [getPostsRetry, hp]

/-! ### Claim theorems -/

/-- C3: in every state in which a refresh run is already in progress
(the `isRefreshing` single-flight flag is set), a further refresh
request returns at once: the state is completely unchanged — nothing is
queued, no computation starts, and the in-progress run resumes from
exactly the state it suspended in, so its eventual result and display
are unaffected. -/
theorem refreshStreak_inflight_noop (env : Env) (net : Net) (pf cf : Nat)
    (today : Int) (m : MSt) (hbusy : m.isRefreshing = true) :
    refreshStreak env net pf cf today m = some m := by
  simp [refreshStreak, hbusy]

theorem refreshStreak_inflight_noop_witness :
    (⟨⟨[], 0, ⟨some (2, true), false, false⟩⟩, some ⟨1, 2⟩, true, false⟩ :
        MSt).isRefreshing = true ∧
    refreshStreak ⟨true, some "alice"⟩ netFail 1 1 0
        ⟨⟨[], 0, ⟨some (2, true), false, false⟩⟩, some ⟨1, 2⟩, true, false⟩ =
      some ⟨⟨[], 0, ⟨some (2, true), false, false⟩⟩, some ⟨1, 2⟩, true, false⟩ :=
  ⟨rfl, refreshStreak_inflight_noop ⟨true, some "alice"⟩ netFail 1 1 0
    ⟨⟨[], 0, ⟨some (2, true), false, false⟩⟩, some ⟨1, 2⟩, true, false⟩ rfl⟩

/-- C8: the today check issues exactly one fetch — with `limit = 5`, no
cursor and hence no pagination, and no retry (the clock advances by
exactly 1 and nothing else in the state changes) — and returns true iff
some returned post falls on the current UTC day, while any fetch or
parse failure yields `false` instead of propagating. -/
theorem checkRecentPostsForToday_single_fetch_fail_open (net : Net)
    (l : LSt) (h : String) (today : Int) :
    checkRecentPostsForToday net l h today =
      ({ l with time := l.time + 1 },
        match net l.time h 5 none with
        | .err => false
        | .ok p => p.feed.contains today) := by
  cases hnet : net l.time h 5 none <;>
    simp [checkRecentPostsForToday, hnet]

/-- C9: a page-fetch failure anywhere in the pagination aborts the
current pass and the retry re-invokes the whole lookup from the
beginning: the continuation cursor is discarded — the next pass starts
again with `cursor = none` — and the decremented budget is the single
lookup-level budget shared by all pages.  The second conjunct exhibits
this behaviourally on `netC9`: the pass fails mid-pagination at cursor
9, and the retry is served the cursor-less first page (finding the
post), where resuming at cursor 9 would have found an empty page. -/
theorem getPostsRetry_restarts_whole_lookup :
    (∀ (net : Net) (h : String) (target : Int) (fuel t r : Nat),
      getPostsRetry net h target fuel t (r + 1) =
        match pageLoop net h target fuel t none with
        | none => none
        | some (t2, .ok b) => some (t2, [], .ok b)
        | some (t2, .error _) =>
          (getPostsRetry net h target fuel t2 r).map
            (fun x => (x.1, 2 ^ (3 - (r + 1)) :: x.2.1, x.2.2))) ∧
    getPostsForDay netC9 2 ⟨[], 0, ⟨none, false, false⟩⟩ "alice" 0 =
      some (⟨[(("alice", 0), true)], 3, ⟨none, false, false⟩⟩, [1], .ok true) :=
  ⟨fun net h target fuel t r => getPostsRetry_succ net h target fuel t r, rfl⟩

/-- C5: the lookup is idempotent per (handle, day): after any completed
call returned a boolean (true or false alike), the boolean is memoized,
and a second call for the same pair — under an arbitrary network oracle
— returns the same boolean with the state unchanged, in particular with
the fetch clock unchanged: zero additional network requests. -/
theorem getPostsForDay_idempotent (net : Net) (pf : Nat) (l : LSt)
    (h : String) (d : Int) (l2 : LSt) (ds : List Nat) (b : Bool)
    (hrun : getPostsForDay net pf l h d = some (l2, ds, .ok b)) :
    ∀ (net2 : Net) (pf2 : Nat),
      getPostsForDay net2 pf2 l2 h d = some (l2, [], .ok b) := by
  have hcached : lookupCache l2.cache h d = some b := by
    unfold getPostsForDay at hrun
    cases hc : lookupCache l.cache h d with
    | some b0 =>
      rw [hc] at hrun
      simp at hrun
      obtain ⟨h1, -, h3⟩ := hrun
      rw [← h1, hc, h3]
    | none =>
      rw [hc] at hrun
      cases hr : getPostsRetry net h d pf l.time 3 with
      | none => rw [hr] at hrun; simp at hrun
      | some v =>
        obtain ⟨t2, ds2, res⟩ := v
        rw [hr] at hrun
        cases res with
        | ok b2 =>
          simp at hrun
          obtain ⟨h1, -, h3⟩ := hrun
          rw [← h1]
          simp [lookupCache_cons_self, h3]
        | error e => simp at hrun
  intro net2 pf2
  unfold getPostsForDay
  rw [hcached]

theorem getPostsForDay_idempotent_witness :
    getPostsForDay (netOfPosts [5]) 1 ⟨[], 0, ⟨none, false, false⟩⟩ "alice" 5 =
      some (⟨[(("alice", 5), true)], 1, ⟨none, false, false⟩⟩, [], .ok true) ∧
    getPostsForDay netFail 0 ⟨[(("alice", 5), true)], 1, ⟨none, false, false⟩⟩
        "alice" 5 =
      some (⟨[(("alice", 5), true)], 1, ⟨none, false, false⟩⟩, [], .ok true) :=
  ⟨rfl, getPostsForDay_idempotent (netOfPosts [5]) 1 ⟨[], 0, ⟨none, false, false⟩⟩
    "alice" 5 ⟨[(("alice", 5), true)], 1, ⟨none, false, false⟩⟩ [] true rfl
    netFail 0⟩

/-- C10: when a lookup propagates an error after exhausting its retries,
nothing is memoized: the cache is exactly the pre-call cache, the failed
(handle, day) pair is (still) absent from it, and a subsequent call for
the same pair runs the full network retry pipeline again rather than
returning any cached value. -/
theorem getPostsForDay_error_leaves_cache (net : Net) (pf : Nat) (l : LSt)
    (h : String) (d : Int) (l2 : LSt) (ds : List Nat) (e : Unit)
    (hrun : getPostsForDay net pf l h d = some (l2, ds, .error e)) :
    l2.cache = l.cache ∧ lookupCache l2.cache h d = none ∧
    ∀ (net2 : Net) (pf2 : Nat),
      getPostsForDay net2 pf2 l2 h d =
        match getPostsRetry net2 h d pf2 l2.time 3 with
        | none => none
        | some (t2, ds2, .ok b) =>
          some ({ l2 with cache := ((h, d), b) :: l2.cache, time := t2 },
            ds2, .ok b)
        | some (t2, ds2, .error e2) =>
          some ({ l2 with time := t2 }, ds2, .error e2) := by
  unfold getPostsForDay at hrun
  cases hc : lookupCache l.cache h d with
  | some b => rw [hc] at hrun; simp at hrun
  | none =>
    rw [hc] at hrun
    cases hr : getPostsRetry net h d pf l.time 3 with
    | none => rw [hr] at hrun; simp at hrun
    | some v =>
      obtain ⟨t2, ds2, res⟩ := v
      rw [hr] at hrun
      cases res with
      | ok b => simp at hrun
      | error e2 =>
        simp at hrun
        obtain ⟨h1, -, -⟩ := hrun
        have hcache2 : l2.cache = l.cache := by rw [← h1]
        have hnone : lookupCache l2.cache h d = none := by rw [hcache2, hc]
        refine ⟨hcache2, hnone, ?_⟩
        intro net2 pf2
        unfold getPostsForDay
        rw [hnone]

theorem getPostsForDay_error_leaves_cache_witness :
    getPostsForDay netFail 1 ⟨[(("bob", 7), true)], 0, ⟨none, false, false⟩⟩
        "alice" 5 =
      some (⟨[(("bob", 7), true)], 4, ⟨none, false, false⟩⟩, [1, 2, 4],
        .error ()) ∧
    (⟨[(("bob", 7), true)], 4, ⟨none, false, false⟩⟩ : LSt).cache =
      (⟨[(("bob", 7), true)], 0, ⟨none, false, false⟩⟩ : LSt).cache ∧
    lookupCache [(("bob", 7), true)] "alice" 5 = none :=
  ⟨rfl,
    (getPostsForDay_error_leaves_cache netFail 1
      ⟨[(("bob", 7), true)], 0, ⟨none, false, false⟩⟩ "alice" 5
      ⟨[(("bob", 7), true)], 4, ⟨none, false, false⟩⟩ [1, 2, 4] () rfl).1,
    (getPostsForDay_error_leaves_cache netFail 1
      ⟨[(("bob", 7), true)], 0, ⟨none, false, false⟩⟩ "alice" 5
      ⟨[(("bob", 7), true)], 4, ⟨none, false, false⟩⟩ [1, 2, 4] () rfl).2.1⟩

theorem getPostsRetry_succ_none (net : Net) (h : String) (target : Int)
    (fuel t r : Nat)
    (hp : pageLoop net h target fuel t none = none) :
    getPostsRetry net h target fuel t (r + 1) = none := by
  simp [getPostsRetry, hp]

theorem getPostsRetry_succ_ok (net : Net) (h : String) (target : Int)
    (fuel t t2 r : Nat) (b : Bool)
    (hp : pageLoop net h target fuel t none = some (t2, .ok b)) :
    getPostsRetry net h target fuel t (r + 1) = some (t2, [], .ok b) := by
  simp [getPostsRetry, hp]

theorem getPostsRetry_succ_err (net : Net) (h : String) (target : Int)
    (fuel t t2 r : Nat) (e : Unit)
    (hp : pageLoop net h target fuel t none = some (t2, .error e)) :
    getPostsRetry net h target fuel t (r + 1) =
      (getPostsRetry net h target fuel t2 r).map
        (fun x => (x.1, 2 ^ (3 - (r + 1)) :: x.2.1, x.2.2)) := by
  cases hq : getPostsRetry net h target fuel t2 r <;>
    simp [getPostsRetry, hp, hq]

theorem getPostsRetry_zero_none (net : Net) (h : String) (target : Int)
    (fuel t : Nat)
    (hp : pageLoop net h target fuel t none = none) :
    getPostsRetry net h target fuel t 0 = none := by
  simp [getPostsRetry, hp]

theorem getPostsRetry_zero_ok (net : Net) (h : String) (target : Int)
    (fuel t t2 : Nat) (b : Bool)
    (hp : pageLoop net h target fuel t none = some (t2, .ok b)) :
    getPostsRetry net h target fuel t 0 = some (t2, [], .ok b) := by
  simp [getPostsRetry, hp]

theorem getPostsRetry_zero_err (net : Net) (h : String) (target : Int)
    (fuel t t2 : Nat) (e : Unit)
    (hp : pageLoop net h target fuel t none = some (t2, .error e)) :
    getPostsRetry net h target fuel t 0 = some (t2, [], .error e) := by
  simp [getPostsRetry, hp]

theorem getPostsRetry_delays_zero (net : Net) (h : String) (target : Int)
    (fuel t t2 : Nat) (ds : List Nat) (r : Except Unit Bool)
    (hrun : getPostsRetry net h target fuel t 0 = some (t2, ds, r)) :
    ds = [] := by
  cases h3 : pageLoop net h target fuel t none with
  | none =>
    rw [getPostsRetry_zero_none net h target fuel t h3] at hrun
    exact Option.noConfusion hrun
  | some v =>
    obtain ⟨u, res⟩ := v
    cases res with
    | ok b =>
      rw [getPostsRetry_zero_ok net h target fuel t u b h3] at hrun
      injection hrun with h'
      injection h' with h1 h2
      injection h2 with hds hr
      exact hds.symm
    | error e =>
      rw [getPostsRetry_zero_err net h target fuel t u e h3] at hrun
      injection hrun with h'
      injection h' with h1 h2
      injection h2 with hds hr
      exact hds.symm

theorem getPostsRetry_delays_one (net : Net) (h : String) (target : Int)
    (fuel t t2 : Nat) (ds : List Nat) (r : Except Unit Bool)
    (hrun : getPostsRetry net h target fuel t 1 = some (t2, ds, r)) :
    (ds = [] ∨ ds = [4]) ∧ (r = .error () → ds = [4]) := by
  rw [show (1 : Nat) = 0 + 1 from rfl] at hrun
  cases h3 : pageLoop net h target fuel t none with
  | none =>
    rw [getPostsRetry_succ_none net h target fuel t 0 h3] at hrun
    exact Option.noConfusion hrun
  | some v =>
    obtain ⟨u, res⟩ := v
    cases res with
    | ok b =>
      rw [getPostsRetry_succ_ok net h target fuel t u 0 b h3] at hrun
      injection hrun with h'
      injection h' with h1 h2
      injection h2 with hds hr
      refine ⟨Or.inl hds.symm, fun he => ?_⟩
      rw [← hr] at he
      exact Except.noConfusion he
    | error e =>
      rw [getPostsRetry_succ_err net h target fuel t u 0 e h3] at hrun
      cases hq : getPostsRetry net h target fuel u 0 with
      | none =>
        rw [hq] at hrun
        exact Option.noConfusion hrun
      | some w =>
        obtain ⟨u3, ds3, r3⟩ := w
        rw [hq] at hrun
        simp only [Option.map_some'] at hrun
        injection hrun with h'
        injection h' with h1 h2
        injection h2 with hds hr
        have hds3 : ds3 = [] :=
          getPostsRetry_delays_zero net h target fuel u u3 ds3 r3 hq
        subst hds3
        refine ⟨Or.inr ?_, fun _ => ?_⟩ <;> · rw [← hds]; norm_num

theorem getPostsRetry_delays_two (net : Net) (h : String) (target : Int)
    (fuel t t2 : Nat) (ds : List Nat) (r : Except Unit Bool)
    (hrun : getPostsRetry net h target fuel t 2 = some (t2, ds, r)) :
    (ds = [] ∨ ds = [2] ∨ ds = [2, 4]) ∧ (r = .error () → ds = [2, 4]) := by
  rw [show (2 : Nat) = 1 + 1 from rfl] at hrun
  cases h3 : pageLoop net h target fuel t none with
  | none =>
    rw [getPostsRetry_succ_none net h target fuel t 1 h3] at hrun
    exact Option.noConfusion hrun
  | some v =>
    obtain ⟨u, res⟩ := v
    cases res with
    | ok b =>
      rw [getPostsRetry_succ_ok net h target fuel t u 1 b h3] at hrun
      injection hrun with h'
      injection h' with h1 h2
      injection h2 with hds hr
      refine ⟨Or.inl hds.symm, fun he => ?_⟩
      rw [← hr] at he
      exact Except.noConfusion he
    | error e =>
      rw [getPostsRetry_succ_err net h target fuel t u 1 e h3] at hrun
      cases hq : getPostsRetry net h target fuel u 1 with
      | none =>
        rw [hq] at hrun
        exact Option.noConfusion hrun
      | some w =>
        obtain ⟨u3, ds3, r3⟩ := w
        rw [hq] at hrun
        simp only [Option.map_some'] at hrun
        injection hrun with h'
        injection h' with h1 h2
        injection h2 with hds hr
        obtain ⟨hd1, he1⟩ :=
          getPostsRetry_delays_one net h target fuel u u3 ds3 r3 hq
        refine ⟨?_, fun he => ?_⟩
        · rcases hd1 with h1 | h1
          · subst h1; right; left; rw [← hds]; norm_num
          · subst h1; right; right; rw [← hds]; norm_num
        · rw [← hr] at he
          have h1 := he1 he
          subst h1
          rw [← hds]; norm_num

/-- C4 (amended): the retry budget lives at the lookup level, not at the
page-fetch level: across one whole `getPostsForDay` lookup the backoff
sleeps performed are an initial segment of 1s, 2s, 4s (so at most 3
backoffs and 4 pagination passes in total), and an error propagates to
the caller exactly when all three backoffs — 1s before the 2nd pass, 2s
before the 3rd, 4s before the 4th — have been spent. -/
theorem getPostsRetry_lookup_level_backoff (net : Net) (h : String)
    (target : Int) (fuel t t2 : Nat) (ds : List Nat) (r : Except Unit Bool)
    (hrun : getPostsRetry net h target fuel t 3 = some (t2, ds, r)) :
    (ds = [] ∨ ds = [1] ∨ ds = [1, 2] ∨ ds = [1, 2, 4]) ∧
    (r = .error () → ds = [1, 2, 4]) := by
  rw [show (3 : Nat) = 2 + 1 from rfl] at hrun
  cases h3 : pageLoop net h target fuel t none with
  | none =>
    rw [getPostsRetry_succ_none net h target fuel t 2 h3] at hrun
    exact Option.noConfusion hrun
  | some v =>
    obtain ⟨u, res⟩ := v
    cases res with
    | ok b =>
      rw [getPostsRetry_succ_ok net h target fuel t u 2 b h3] at hrun
      injection hrun with h'
      injection h' with h1 h2
      injection h2 with hds hr
      refine ⟨Or.inl hds.symm, fun he => ?_⟩
      rw [← hr] at he
      exact Except.noConfusion he
    | error e =>
      rw [getPostsRetry_succ_err net h target fuel t u 2 e h3] at hrun
      cases hq : getPostsRetry net h target fuel u 2 with
      | none =>
        rw [hq] at hrun
        exact Option.noConfusion hrun
      | some w =>
        obtain ⟨u3, ds3, r3⟩ := w
        rw [hq] at hrun
        simp only [Option.map_some'] at hrun
        injection hrun with h'
        injection h' with h1 h2
        injection h2 with hds hr
        obtain ⟨hd2, he2⟩ :=
          getPostsRetry_delays_two net h target fuel u u3 ds3 r3 hq
        refine ⟨?_, fun he => ?_⟩
        · rcases hd2 with h1 | h1 | h1
          · subst h1; right; left; rw [← hds]; norm_num
          · subst h1; right; right; left; rw [← hds]; norm_num
          · subst h1; right; right; right; rw [← hds]; norm_num
        · rw [← hr] at he
          have h1 := he2 he
          subst h1
          rw [← hds]; norm_num

theorem getPostsRetry_lookup_level_backoff_witness :
    getPostsRetry netFail "w" 0 1 0 3 = some (4, [1, 2, 4], .error ()) ∧
    (([1, 2, 4] : List Nat) = [] ∨ ([1, 2, 4] : List Nat) = [1] ∨
      ([1, 2, 4] : List Nat) = [1, 2] ∨
      ([1, 2, 4] : List Nat) = [1, 2, 4]) ∧
    ((Except.error () : Except Unit Bool) = .error () →
      ([1, 2, 4] : List Nat) = [1, 2, 4]) :=
  ⟨rfl, getPostsRetry_lookup_level_backoff netFail "w" 0 1 0 4 [1, 2, 4]
    (.error ()) rfl⟩

/-- C4 counterexample: the claim's per-page-fetch retry discipline is
not what the source implements.  On the schedule `netC4` no page fetch
ever fails twice in a row — failures at fetches 0, 2, 4, 6 are separated
by successful fetches — so under the claim ("a NetworkError is retried
up to 3 additional attempts per page fetch ... a 4th consecutive failure
propagates") the lookup would complete; the spec-modelled per-page-fetch
combinator indeed finishes with `false` after four 1-second backoffs.
The source instead spends its shared lookup-level budget (backoffs 1s,
2s, 4s) and propagates the error. -/
theorem retry_budget_not_per_page_fetch_cex :
    getPostsRetry netC4 "alice" 0 5 0 3 = some (7, [1, 2, 4], .error ()) ∧
    specPageLoop netC4 "alice" 0 12 0 none =
      some (8, [1, 1, 1, 1], .ok false) ∧
    getPostsRetry netC4 "alice" 0 5 0 3 ≠
      specPageLoop netC4 "alice" 0 12 0 none := by
  refine ⟨rfl, rfl, ?_⟩
  intro hcontra
  rw [show getPostsRetry netC4 "alice" 0 5 0 3 =
        some (7, [1, 2, 4], .error ()) from rfl,
      show specPageLoop netC4 "alice" 0 12 0 none =
        some (8, [1, 1, 1, 1], .ok false) from rfl] at hcontra
  simp at hcontra

/-- C7: a refresh request that is not dropped by the single-flight guard
and finds the widget container first clears the Day-Post Index cache and
removes the persisted record, and only then runs the standard update
sequence: its outcome is exactly `updateFunc` applied to the state with
an empty cache and no stored record (the flag being reset afterwards in
the `finally` block). -/
theorem refreshStreak_clears_then_recomputes (env : Env) (net : Net)
    (pf cf : Nat) (today : Int) (m : MSt) (n : Nat) (p : Bool)
    (hidle : m.isRefreshing = false) (hhelp : env.helpPresent = true)
    (hcont : m.lst.dom.container = some (n, p)) :
    refreshStreak env net pf cf today m =
      (updateFunc env net pf cf today
          ⟨⟨[], m.lst.time, m.lst.dom⟩, none, true, m.pending⟩).map
        (fun s2 => { s2 with isRefreshing := false }) := by
  cases hu : updateFunc env net pf cf today
      ⟨⟨[], m.lst.time, m.lst.dom⟩, none, true, m.pending⟩ <;>
    simp [refreshStreak, updateOrInsertStreakInfo, hidle, hhelp, hcont, hu]

theorem refreshStreak_clears_then_recomputes_witness :
    (⟨⟨[(("a", 4), true)], 0, ⟨some (9, true), false, false⟩⟩,
        some ⟨1, 9⟩, false, false⟩ : MSt).isRefreshing = false ∧
    (⟨true, some "a"⟩ : Env).helpPresent = true ∧
    (⟨⟨[(("a", 4), true)], 0, ⟨some (9, true), false, false⟩⟩,
        some ⟨1, 9⟩, false, false⟩ : MSt).lst.dom.container =
      some (9, true) ∧
    refreshStreak ⟨true, some "a"⟩ (netOfPosts [5]) 1 3 5
        ⟨⟨[(("a", 4), true)], 0, ⟨some (9, true), false, false⟩⟩,
          some ⟨1, 9⟩, false, false⟩ =
      (updateFunc ⟨true, some "a"⟩ (netOfPosts [5]) 1 3 5
          ⟨⟨[], 0, ⟨some (9, true), false, false⟩⟩, none, true, false⟩).map
        (fun s2 => { s2 with isRefreshing := false }) :=
  ⟨rfl, rfl, rfl,
    refreshStreak_clears_then_recomputes ⟨true, some "a"⟩ (netOfPosts [5])
      1 3 5
      ⟨⟨[(("a", 4), true)], 0, ⟨some (9, true), false, false⟩⟩,
        some ⟨1, 9⟩, false, false⟩ 9 true rfl rfl rfl⟩

theorem contains_isEmpty_false {l : List Int} {a : Int}
    (hc : l.contains a = true) : l.isEmpty = false := by
  cases l with
  | nil => simp at hc
  | cons x xs => rfl

theorem chunkNet_walk_found (pages : List (List Int)) (h : String)
    (target : Int) :
    ∀ (m k : Nat) (c : Option Nat) (t fuel : Nat),
      c.getD 0 = k → k + m < pages.length →
      (pages.getD (k + m) []).contains target = true →
      (∀ j, k ≤ j → j < k + m →
        (pages.getD j []).contains target = false ∧ pages.getD j [] ≠ []) →
      m < fuel →
      pageLoop (chunkNet pages) h target fuel t c =
        some (t + (m + 1), .ok true) := by
  intro m
  induction m with
  | zero =>
    intro k c t fuel hc hlen hmatch hprev hfuel
    obtain ⟨f, rfl⟩ : ∃ f, fuel = f + 1 := ⟨fuel - 1, by omega⟩
    simp only [Nat.add_zero] at hlen hmatch
    have hmem : target ∈ pages[k]?.getD [] := by
      rw [← List.getD_eq_getElem?_getD]
      simpa using hmatch
    have hne : ¬ pages[k]?.getD [] = [] := by
      intro hx
      rw [hx] at hmem
      simp at hmem
    simp [pageLoop, chunkNet, hc, hmem, hne]
  | succ n ih =>
    intro k c t fuel hc hlen hmatch hprev hfuel
    obtain ⟨f, rfl⟩ : ∃ f, fuel = f + 1 := ⟨fuel - 1, by omega⟩
    have hk := hprev k (Nat.le_refl k) (by omega)
    have hnmem : target ∉ pages[k]?.getD [] := by
      rw [← List.getD_eq_getElem?_getD]
      simpa using hk.1
    have hne : ¬ pages[k]?.getD [] = [] := by
      rw [← List.getD_eq_getElem?_getD]
      exact hk.2
    have hlt : k + 1 < pages.length := by omega
    have harith : k + 1 + n = k + (n + 1) := by omega
    have hstep := ih (k + 1) (some (k + 1)) (t + 1) f rfl
      (by omega) (by rw [harith]; exact hmatch)
      (fun j hj1 hj2 => hprev j (by omega) (by omega)) (by omega)
    have harith2 : t + 1 + (n + 1) = t + (n + 1 + 1) := by omega
    simp [pageLoop, chunkNet, hc, hnmem, hne, hlt, hstep, harith2]

theorem chunkNet_walk_nomatch (pages : List (List Int)) (h : String)
    (target : Int) :
    ∀ (m k : Nat) (c : Option Nat) (t fuel : Nat),
      c.getD 0 = k → k + m = pages.length → 1 ≤ m →
      (∀ j, k ≤ j → j < pages.length →
        (pages.getD j []).contains target = false ∧ pages.getD j [] ≠ []) →
      m ≤ fuel →
      pageLoop (chunkNet pages) h target fuel t c =
        some (t + m, .ok false) := by
  intro m
  induction m with
  | zero => intro k c t fuel hc hlen hm; omega
  | succ n ih =>
    intro k c t fuel hc hlen hm hall hfuel
    obtain ⟨f, rfl⟩ : ∃ f, fuel = f + 1 := ⟨fuel - 1, by omega⟩
    have hk := hall k (Nat.le_refl k) (by omega)
    have hnmem : target ∉ pages[k]?.getD [] := by
      rw [← List.getD_eq_getElem?_getD]
      simpa using hk.1
    have hne : ¬ pages[k]?.getD [] = [] := by
      rw [← List.getD_eq_getElem?_getD]
      exact hk.2
    rcases Nat.eq_zero_or_pos n with hn | hn
    · subst hn
      have hend : ¬ k + 1 < pages.length := by omega
      simp [pageLoop, chunkNet, hc, hnmem, hne, hend]
    · have hlt : k + 1 < pages.length := by omega
      have hstep := ih (k + 1) (some (k + 1)) (t + 1) f rfl
        (by omega) (by omega)
        (fun j hj1 hj2 => hall j (by omega) hj2) (by omega)
      have harith2 : t + 1 + n = t + (n + 1) := by omega
      simp [pageLoop, chunkNet, hc, hnmem, hne, hlt, hstep, harith2]

/-- C6: pagination halts at the first page containing a post on the
target day — the lookup answers `true` after exactly `i + 1` page
fetches when the match first appears on page `i`, so no further pages
are requested once a match is found.  Conversely (inner conjuncts) a
cursor chain that ends without a match answers `false` after fetching
every page, and an empty page stops the lookup with `false` at once,
regardless of any continuation cursor. -/
theorem getPostsForDay_halts_at_first_match (pages : List (List Int))
    (h : String) (target : Int) (i t fuel : Nat)
    (hi : i < pages.length)
    (hmatch : (pages.getD i []).contains target = true)
    (hprev : ∀ j, j < i →
      (pages.getD j []).contains target = false ∧ pages.getD j [] ≠ [])
    (hfuel : i < fuel) :
    pageLoop (chunkNet pages) h target fuel t none =
      some (t + (i + 1), .ok true) ∧
    (∀ (qs : List (List Int)) (t2 fuel2 : Nat), qs ≠ [] →
      (∀ j, j < qs.length →
        (qs.getD j []).contains target = false ∧ qs.getD j [] ≠ []) →
      qs.length ≤ fuel2 →
      pageLoop (chunkNet qs) h target fuel2 t2 none =
        some (t2 + qs.length, .ok false)) ∧
    (∀ (qs : List (List Int)) (t3 fuel3 : Nat), qs.getD 0 [] = [] →
      0 < fuel3 →
      pageLoop (chunkNet qs) h target fuel3 t3 none =
        some (t3 + 1, .ok false)) := by
  refine ⟨?_, ?_, ?_⟩
  · have := chunkNet_walk_found pages h target i 0 none t fuel rfl
      (by omega) (by simpa using hmatch)
      (fun j hj1 hj2 => hprev j (by omega)) hfuel
    exact this
  · intro qs t2 fuel2 hq hall hfuel2
    exact chunkNet_walk_nomatch qs h target qs.length 0 none t2 fuel2 rfl
      (by omega) (by cases qs with | nil => exact absurd rfl hq | cons a l => simp)
      (fun j hj1 hj2 => hall j hj2) hfuel2
  · intro qs t3 fuel3 hempty hf
    obtain ⟨f, rfl⟩ : ∃ f, fuel3 = f + 1 := ⟨fuel3 - 1, by omega⟩
    have hempty2 : qs[0]?.getD [] = ([] : List Int) := by
      rw [← List.getD_eq_getElem?_getD]
      exact hempty
    simp [pageLoop, chunkNet, hempty2]

theorem getPostsForDay_halts_at_first_match_witness :
    2 < 3 ∧
    (([[5], [6], [2]].getD 2 []).contains (2 : Int) = true) ∧
    (∀ j, j < 2 →
      (([[5], [6], [2]] : List (List Int)).getD j []).contains (2 : Int)
          = false ∧
        ([[5], [6], [2]] : List (List Int)).getD j [] ≠ []) ∧
    2 < 5 ∧
    (pageLoop (chunkNet [[5], [6], [2]]) "w6" 2 5 0 none =
        some (0 + (2 + 1), .ok true) ∧
      (∀ (qs : List (List Int)) (t2 fuel2 : Nat), qs ≠ [] →
        (∀ j, j < qs.length →
          (qs.getD j []).contains (2 : Int) = false ∧ qs.getD j [] ≠ []) →
        qs.length ≤ fuel2 →
        pageLoop (chunkNet qs) "w6" 2 fuel2 t2 none =
          some (t2 + qs.length, .ok false)) ∧
      (∀ (qs : List (List Int)) (t3 fuel3 : Nat), qs.getD 0 [] = [] →
        0 < fuel3 →
        pageLoop (chunkNet qs) "w6" 2 fuel3 t3 none =
          some (t3 + 1, .ok false))) :=
  ⟨by decide, by decide, by decide, by decide,
    getPostsForDay_halts_at_first_match [[5], [6], [2]] "w6" 2 2 0 5
      (by decide) (by decide) (by decide) (by decide)⟩

/-- A cache is coherent with the post history `posts` when every
memoized boolean agrees with day membership in `posts`. -/
def CacheOK (posts : List Int) (c : Cache) : Prop :=
  ∀ (h : String) (d : Int) (b : Bool),
    lookupCache c h d = some b → b = posts.contains d

theorem cacheOK_nil (posts : List Int) : CacheOK posts [] := by
  intro h d b hb
  rw [lookupCache_nil] at hb
  exact Option.noConfusion hb

theorem lookupCache_cons (c : Cache) (h h2 : String) (d d2 : Int) (b : Bool) :
    lookupCache (((h, d), b) :: c) h2 d2 =
      if (h, d) = (h2, d2) then some b else lookupCache c h2 d2 := by
  by_cases he : (h, d) = (h2, d2)
  · rw [if_pos he, lookupCache, List.find?_cons_of_pos _ (by simp [he])]
    rfl
  · rw [if_neg he, lookupCache, List.find?_cons_of_neg _ (by simp [he])]
    rfl

theorem cacheOK_insert (posts : List Int) (c : Cache) (h : String) (d : Int)
    (hok : CacheOK posts c) :
    CacheOK posts (((h, d), posts.contains d) :: c) := by
  intro h2 d2 b hb
  rw [lookupCache_cons] at hb
  by_cases he : (h, d) = (h2, d2)
  · rw [if_pos he] at hb
    injection hb with hb'
    injection he with he1 he2
    rw [← hb', he2]
  · rw [if_neg he] at hb
    exact hok h2 d2 b hb

theorem pageLoop_netOfPosts (posts : List Int) (h : String) (target : Int)
    (f t : Nat) (c : Option Nat) :
    pageLoop (netOfPosts posts) h target (f + 1) t c =
      some (t + 1, .ok (posts.contains target)) := by
  cases hp : posts with
  | nil => simp [pageLoop, netOfPosts]
  | cons a l =>
    by_cases hm : (a :: l).contains target = true
    · have hmem : target ∈ a :: l := by simpa using hm
      simp [pageLoop, netOfPosts, hmem, hm]
    · have hm' : (a :: l).contains target = false := by
        cases hx : (a :: l).contains target
        · rfl
        · exact absurd hx hm
      have hnmem : target ∉ a :: l := by simpa using hm'
      simp [pageLoop, netOfPosts, hnmem, hm']

theorem getPostsForDay_netOfPosts (posts : List Int) (f : Nat) (l : LSt)
    (h : String) (d : Int) (hok : CacheOK posts l.cache) :
    ∃ l2 : LSt,
      getPostsForDay (netOfPosts posts) (f + 1) l h d =
        some (l2, [], .ok (posts.contains d)) ∧
      CacheOK posts l2.cache ∧ l2.dom = l.dom ∧
      l2.time ≤ l.time + 1 := by
  cases hc : lookupCache l.cache h d with
  | some b =>
    refine ⟨l, ?_, hok, rfl, by omega⟩
    rw [getPostsForDay, hc, hok h d b hc]
  | none =>
    refine ⟨⟨((h, d), posts.contains d) :: l.cache, l.time + 1, l.dom⟩,
      ?_, ?_, rfl, by simp⟩
    · rw [getPostsForDay, hc]
      have hretry : getPostsRetry (netOfPosts posts) h d (f + 1) l.time 3 =
          some (l.time + 1, [], .ok (posts.contains d)) :=
        getPostsRetry_succ_ok (netOfPosts posts) h d (f + 1) l.time
          (l.time + 1) 2 (posts.contains d)
          (pageLoop_netOfPosts posts h d f l.time none)
      rw [hretry]
    · exact cacheOK_insert posts l.cache h d hok

theorem calcLoop_run (posts : List Int) (hp : Bool) (h : String) (f : Nat) :
    ∀ (n : Nat) (d : Int) (l : LSt) (cf : Nat),
      CacheOK posts l.cache →
      (∀ i : Nat, i < n → posts.contains (d - i) = true) →
      posts.contains (d - n) = false →
      n + 1 ≤ cf →
      ∃ l2 : LSt,
        calcLoop hp (netOfPosts posts) (f + 1) h cf l d =
          some (l2, .ok n) ∧ CacheOK posts l2.cache ∧ l2.dom = l.dom := by
  intro n
  induction n with
  | zero =>
    intro d l cf hok hrun hstop hcf
    obtain ⟨g, rfl⟩ : ∃ g, cf = g + 1 := ⟨cf - 1, by omega⟩
    obtain ⟨l2, hday, hok2, hdom, -⟩ :=
      getPostsForDay_netOfPosts posts f l h d hok
    have hd0 : posts.contains d = false := by
      have := hstop
      simpa using this
    rw [hd0] at hday
    refine ⟨l2, ?_, hok2, hdom⟩
    rw [calcLoop, hday]
  | succ n ih =>
    intro d l cf hok hrun hstop hcf
    obtain ⟨g, rfl⟩ : ∃ g, cf = g + 1 := ⟨cf - 1, by omega⟩
    obtain ⟨l2, hday, hok2, hdom, -⟩ :=
      getPostsForDay_netOfPosts posts f l h d hok
    have hd0 : posts.contains d = true := by
      have h0 := hrun 0 (by omega)
      simpa using h0
    rw [hd0] at hday
    have hrun2 : ∀ i : Nat, i < n → posts.contains (d - 1 - i) = true := by
      intro i hi
      have := hrun (i + 1) (by omega)
      have harith : d - (i + 1 : Nat) = d - 1 - (i : Nat) := by
        push_cast
        ring
      rwa [harith] at this
    have hstop2 : posts.contains (d - 1 - n) = false := by
      have harith : d - (n + 1 : Nat) = d - 1 - (n : Nat) := by
        push_cast
        ring
      rwa [harith] at hstop
    obtain ⟨l3, hrec, hok3, hdom3⟩ :=
      ih (d - 1) l2 g hok2 hrun2 hstop2 (by omega)
    refine ⟨l3, ?_, hok3, by rw [hdom3, hdom]⟩
    rw [calcLoop, hday]
    simp only [hrec]

/-- C1: `calculateStreak` counts only days strictly before today.  Over
a reliable feed holding the post history `posts`, if the `n` days
`today - 1, today - 2, ..., today - n` all have a post and `today - 1 - n`
does not, the result is exactly `n` — in particular `n = 0` whenever
yesterday has no post, whatever the history holds on older days or on
today itself: yesterday is evaluated first and a gap there yields 0
immediately. -/
theorem calculateStreak_counts_prior_run (posts : List Int) (hp : Bool)
    (h : String) (today : Int) (l : LSt) (n : Nat) (f cf : Nat)
    (hok : CacheOK posts l.cache)
    (hrun : ∀ i : Nat, i < n → posts.contains (today - 1 - i) = true)
    (hstop : posts.contains (today - 1 - n) = false)
    (hcf : n + 1 ≤ cf) :
    ∃ l2 : LSt,
      calculateStreak hp (netOfPosts posts) (f + 1) cf h today l =
        some (l2, .ok n) := by
  obtain ⟨l2, hday, hok2, -, -⟩ :=
    getPostsForDay_netOfPosts posts f l h (today - 1) hok
  cases n with
  | zero =>
    have hd0 : posts.contains (today - 1) = false := by
      have := hstop
      simpa using this
    rw [hd0] at hday
    refine ⟨l2, ?_⟩
    rw [calculateStreak, hday]
  | succ n =>
    have hd0 : posts.contains (today - 1) = true := by
      have h0 := hrun 0 (by omega)
      simpa using h0
    rw [hd0] at hday
    obtain ⟨l3, hrec, -, -⟩ :=
      calcLoop_run posts hp h f (n + 1) (today - 1) l2 cf hok2
        (fun i hi => hrun i hi) hstop hcf
    refine ⟨l3, ?_⟩
    rw [calculateStreak, hday]
    simp only [hrec]

theorem calculateStreak_counts_prior_run_witness :
    CacheOK [10, 9, 7] [] ∧
    (∀ i : Nat, i < 2 → ([10, 9, 7] : List Int).contains (11 - 1 - i) = true) ∧
    ([10, 9, 7] : List Int).contains (11 - 1 - (2 : Nat)) = false ∧
    2 + 1 ≤ 5 ∧
    ∃ l2 : LSt,
      calculateStreak true (netOfPosts [10, 9, 7]) 1 5 "w1" 11
        ⟨[], 0, ⟨none, false, false⟩⟩ = some (l2, .ok 2) :=
  ⟨cacheOK_nil [10, 9, 7], by decide, by decide, by decide,
    calculateStreak_counts_prior_run [10, 9, 7] true "w1" 11
      ⟨[], 0, ⟨none, false, false⟩⟩ 2 0 5 (cacheOK_nil [10, 9, 7])
      (by decide) (by decide) (by decide)⟩

theorem pageLoop_time_mono (net : Net) (h : String) (target : Int) :
    ∀ (fuel t : Nat) (c : Option Nat) (t2 : Nat) (r : Except Unit Bool),
      pageLoop net h target fuel t c = some (t2, r) → t + 1 ≤ t2 := by
  intro fuel
  induction fuel with
  | zero => intro t c t2 r hrun; exact Option.noConfusion hrun
  | succ f ih =>
    intro t c t2 r hrun
    cases hn : net t h 100 c with
    | err =>
      simp only [pageLoop, hn] at hrun
      injection hrun with h'
      injection h' with h1 h2
      omega
    | ok p =>
      simp only [pageLoop, hn] at hrun
      by_cases he : p.feed.isEmpty = true
      · rw [if_pos he] at hrun
        injection hrun with h'
        injection h' with h1 h2
        omega
      · rw [if_neg he] at hrun
        by_cases hm : p.feed.contains target = true
        · rw [if_pos hm] at hrun
          injection hrun with h'
          injection h' with h1 h2
          omega
        · rw [if_neg hm] at hrun
          cases hc : p.cursor with
          | some c2 =>
            rw [hc] at hrun
            have := ih (t + 1) (some c2) t2 r hrun
            omega
          | none =>
            rw [hc] at hrun
            injection hrun with h'
            injection h' with h1 h2
            omega

theorem getPostsRetry_time_mono (net : Net) (h : String) (target : Int)
    (fuel : Nat) :
    ∀ (r t t2 : Nat) (ds : List Nat) (res : Except Unit Bool),
      getPostsRetry net h target fuel t r = some (t2, ds, res) →
      t + 1 ≤ t2 := by
  intro r
  induction r with
  | zero =>
    intro t t2 ds res hrun
    cases h3 : pageLoop net h target fuel t none with
    | none =>
      rw [getPostsRetry_zero_none net h target fuel t h3] at hrun
      exact Option.noConfusion hrun
    | some v =>
      obtain ⟨u, pres⟩ := v
      have hl := pageLoop_time_mono net h target fuel t none u pres h3
      cases pres with
      | ok b =>
        rw [getPostsRetry_zero_ok net h target fuel t u b h3] at hrun
        injection hrun with h'
        injection h' with h1 h2
        omega
      | error e =>
        rw [getPostsRetry_zero_err net h target fuel t u e h3] at hrun
        injection hrun with h'
        injection h' with h1 h2
        omega
  | succ n ih =>
    intro t t2 ds res hrun
    cases h3 : pageLoop net h target fuel t none with
    | none =>
      rw [getPostsRetry_succ_none net h target fuel t n h3] at hrun
      exact Option.noConfusion hrun
    | some v =>
      obtain ⟨u, pres⟩ := v
      have hl := pageLoop_time_mono net h target fuel t none u pres h3
      cases pres with
      | ok b =>
        rw [getPostsRetry_succ_ok net h target fuel t u n b h3] at hrun
        injection hrun with h'
        injection h' with h1 h2
        omega
      | error e =>
        rw [getPostsRetry_succ_err net h target fuel t u n e h3] at hrun
        cases hq : getPostsRetry net h target fuel u n with
        | none =>
          rw [hq] at hrun
          exact Option.noConfusion hrun
        | some w =>
          obtain ⟨u3, ds3, r3⟩ := w
          have hin := ih u u3 ds3 r3 hq
          rw [hq] at hrun
          simp only [Option.map_some'] at hrun
          injection hrun with h'
          injection h' with h1 h2
          omega

theorem getPostsForDay_time_mono (net : Net) (fuel : Nat) (l : LSt)
    (h : String) (d : Int) (l2 : LSt) (ds : List Nat)
    (res : Except Unit Bool)
    (hrun : getPostsForDay net fuel l h d = some (l2, ds, res)) :
    l.time ≤ l2.time := by
  rw [getPostsForDay] at hrun
  cases hc : lookupCache l.cache h d with
  | some b =>
    rw [hc] at hrun
    injection hrun with h'
    injection h' with h1 h2
    rw [← h1]
  | none =>
    rw [hc] at hrun
    cases hr : getPostsRetry net h d fuel l.time 3 with
    | none =>
      rw [hr] at hrun
      exact Option.noConfusion hrun
    | some v =>
      obtain ⟨t2, ds2, res2⟩ := v
      have hm := getPostsRetry_time_mono net h d fuel 3 l.time t2 ds2 res2 hr
      rw [hr] at hrun
      cases res2 with
      | ok b =>
        injection hrun with h'
        injection h' with h1 h2
        rw [← h1]
        simp
        omega
      | error e =>
        injection hrun with h'
        injection h' with h1 h2
        rw [← h1]
        simp
        omega

theorem calcLoop_time_mono (hp : Bool) (net : Net) (pf : Nat) (h : String) :
    ∀ (cf : Nat) (l : LSt) (d : Int) (l2 : LSt) (res : Except Unit Nat),
      calcLoop hp net pf h cf l d = some (l2, res) → l.time ≤ l2.time := by
  intro cf
  induction cf with
  | zero => intro l d l2 res hrun; exact Option.noConfusion hrun
  | succ g ih =>
    intro l d l2 res hrun
    cases hg : getPostsForDay net pf l h d with
    | none =>
      simp only [calcLoop, hg] at hrun
      exact Option.noConfusion hrun
    | some v =>
      obtain ⟨lm, dsm, rm⟩ := v
      have hm := getPostsForDay_time_mono net pf l h d lm dsm rm hg
      cases rm with
      | error e =>
        simp only [calcLoop, hg] at hrun
        injection hrun with h'
        injection h' with h1 h2
        rw [← h1]
        simpa using hm
      | ok b =>
        cases b with
        | false =>
          simp only [calcLoop, hg] at hrun
          injection hrun with h'
          injection h' with h1 h2
          rw [← h1]
          exact hm
        | true =>
          simp only [calcLoop, hg] at hrun
          cases hrec : calcLoop hp net pf h g lm (d - 1) with
          | none =>
            rw [hrec] at hrun
            exact Option.noConfusion hrun
          | some w =>
            obtain ⟨lr, rr⟩ := w
            have hmr := ih lm (d - 1) lr rr hrec
            rw [hrec] at hrun
            cases rr with
            | error e =>
              injection hrun with h'
              injection h' with h1 h2
              rw [← h1]
              omega
            | ok k =>
              injection hrun with h'
              injection h' with h1 h2
              rw [← h1]
              omega

theorem calculateStreak_time_mono (hp : Bool) (net : Net) (pf cf : Nat)
    (h : String) (today : Int) (l : LSt) (l2 : LSt)
    (res : Except Unit Nat)
    (hrun : calculateStreak hp net pf cf h today l = some (l2, res)) :
    l.time ≤ l2.time := by
  rw [calculateStreak] at hrun
  cases hg : getPostsForDay net pf l h (today - 1) with
  | none =>
    rw [hg] at hrun
    exact Option.noConfusion hrun
  | some v =>
    obtain ⟨lm, dsm, rm⟩ := v
    have hm := getPostsForDay_time_mono net pf l h (today - 1) lm dsm rm hg
    rw [hg] at hrun
    cases rm with
    | error e =>
      injection hrun with h'
      injection h' with h1 h2
      rw [← h1]
      exact hm
    | ok b =>
      cases b with
      | false =>
        injection hrun with h'
        injection h' with h1 h2
        rw [← h1]
        exact hm
      | true =>
        have := calcLoop_time_mono hp net pf h cf lm (today - 1) l2 res hrun
        omega

theorem updateFunc_body (env : Env) (net : Net) (pf cf : Nat) (today : Int)
    (lst0 : LSt) (o : Option StreakRecord) (ir pd : Bool) (handle : String)
    (c2 : LSt × Bool)
    (henv : env.helpPresent = true) (hprof : env.profile = some handle)
    (hchk : checkRecentPostsForToday net
        (if ir then lst0
         else ⟨lst0.cache, lst0.time,
           createLoadingIndicator (removeExistingStreakContainers lst0.dom)⟩)
        handle today = c2) :
    updateFunc env net pf cf today ⟨lst0, o, ir, pd⟩ =
      match calculateStreak true net pf cf handle today c2.1 with
      | none => none
      | some (l2, .error _) =>
        some ⟨⟨l2.cache, l2.time, showError true l2.dom⟩, o, ir, pd⟩
      | some (l2, .ok k) =>
        some ⟨⟨l2.cache, l2.time,
            createStreakDisplay (removeExistingStreakContainers l2.dom)
              (k + if c2.2 then 1 else 0) c2.2⟩,
          some ⟨today, k + if c2.2 then 1 else 0⟩, ir, pd⟩ := by
  subst hchk
  simp only [updateFunc, henv, hprof]
  cases hcalc : calculateStreak true net pf cf handle today
      (checkRecentPostsForToday net
        (if ir then lst0
         else ⟨lst0.cache, lst0.time,
           createLoadingIndicator (removeExistingStreakContainers lst0.dom)⟩)
        handle today).1 with
  | none => simp [hcalc]
  | some v =>
    obtain ⟨l2, res⟩ := v
    cases res with
    | error e => simp [hcalc]
    | ok k => simp [hcalc]

/-- C2: every invocation of the update sequence recomputes both
`hasPostedToday` (via the today checker, which always issues its fetch:
the clock strictly advances) and the historical streak (via the Day-Post
Index) from the feed: the entire outcome — low-level state (cache,
network activity, DOM) and control flow — is independent of the
persisted record the run started from, and the record is only written as
output: either left untouched (failure paths) or overwritten with the
freshly computed total that is also displayed.  It is never read to
substitute for, or skip any part of, the recomputation. -/
theorem updateFunc_recomputes_ignores_store (env : Env) (net : Net)
    (pf cf : Nat) (today : Int) (m : MSt) (o1 o2 : Option StreakRecord)
    (r1 : MSt)
    (hrun : updateFunc env net pf cf today { m with storage := o1 } =
      some r1) :
    ∃ r2 : MSt,
      updateFunc env net pf cf today { m with storage := o2 } = some r2 ∧
      r2.lst = r1.lst ∧ r2.isRefreshing = r1.isRefreshing ∧
      r2.pending = r1.pending ∧
      ((r1.storage = o1 ∧ r2.storage = o2) ∨
        (∃ (n : Nat) (p : Bool), r1.storage = some ⟨today, n⟩ ∧
          r2.storage = some ⟨today, n⟩ ∧
          r1.lst.dom.container = some (n, p) ∧
          r1.lst.dom.loading = false ∧ r1.lst.dom.errorShown = false)) ∧
      (env.helpPresent = true → env.profile.isSome = true →
        m.lst.time + 1 ≤ r1.lst.time) := by
  cases henv : env.helpPresent with
  | false =>
    rw [updateFunc, if_pos henv] at hrun
    rw [updateFunc, if_pos henv]
    injection hrun with hr1
    subst hr1
    exact ⟨_, rfl, rfl, rfl, rfl, Or.inl ⟨rfl, rfl⟩,
      fun hcontra _ => Bool.noConfusion hcontra⟩
  | true =>
    have hne : ¬ env.helpPresent = false := by simp [henv]
    cases hprof : env.profile with
    | none =>
      rw [updateFunc, if_neg hne, hprof] at hrun
      rw [updateFunc, if_neg hne, hprof]
      injection hrun with hr1
      subst hr1
      exact ⟨_, rfl, rfl, rfl, rfl, Or.inl ⟨rfl, rfl⟩,
        fun _ hcontra => Bool.noConfusion hcontra⟩
    | some handle =>
      rw [updateFunc_body env net pf cf today m.lst o1 m.isRefreshing
        m.pending handle _ henv hprof rfl] at hrun
      rw [updateFunc_body env net pf cf today m.lst o2 m.isRefreshing
        m.pending handle _ henv hprof rfl]
      have hchktime : (checkRecentPostsForToday net
          (if m.isRefreshing then m.lst
           else ⟨m.lst.cache, m.lst.time,
             createLoadingIndicator (removeExistingStreakContainers
               m.lst.dom)⟩)
          handle today).1.time = m.lst.time + 1 := by
        cases hir : m.isRefreshing <;>
          simp [checkRecentPostsForToday, hir] <;>
          cases net m.lst.time handle 5 none <;> simp
      revert hrun
      cases hcalc : calculateStreak true net pf cf handle today
          (checkRecentPostsForToday net
            (if m.isRefreshing then m.lst
             else ⟨m.lst.cache, m.lst.time,
               createLoadingIndicator (removeExistingStreakContainers
                 m.lst.dom)⟩)
            handle today).1 with
      | none =>
        intro hrun
        exact Option.noConfusion hrun
      | some v =>
        intro hrun
        obtain ⟨l2, res⟩ := v
        have hmono := calculateStreak_time_mono true net pf cf handle today
          _ l2 res hcalc
        rw [hchktime] at hmono
        cases res with
        | error e =>
          injection hrun with hr1
          subst hr1
          exact ⟨_, rfl, rfl, rfl, rfl, Or.inl ⟨rfl, rfl⟩,
            fun _ _ => hmono⟩
        | ok k =>
          injection hrun with hr1
          subst hr1
          exact ⟨_, rfl, rfl, rfl, rfl,
            Or.inr ⟨k + if (checkRecentPostsForToday net
                (if m.isRefreshing then m.lst
                 else ⟨m.lst.cache, m.lst.time,
                   createLoadingIndicator (removeExistingStreakContainers
                     m.lst.dom)⟩)
                handle today).2 then 1 else 0,
              (checkRecentPostsForToday net
                (if m.isRefreshing then m.lst
                 else ⟨m.lst.cache, m.lst.time,
                   createLoadingIndicator (removeExistingStreakContainers
                     m.lst.dom)⟩)
                handle today).2, rfl, rfl, rfl, rfl, rfl⟩,
            fun _ _ => hmono⟩

theorem updateFunc_recomputes_ignores_store_witness :
    updateFunc ⟨true, some "w2"⟩ (netOfPosts [5]) 1 5 5
        ⟨⟨[], 0, ⟨none, false, false⟩⟩, some ⟨1, 77⟩, false, false⟩ =
      some ⟨⟨[(("w2", 4), false)], 2, ⟨some (1, true), false, false⟩⟩,
        some ⟨5, 1⟩, false, false⟩ ∧
    ∃ r2 : MSt,
      updateFunc ⟨true, some "w2"⟩ (netOfPosts [5]) 1 5 5
          ⟨⟨[], 0, ⟨none, false, false⟩⟩, none, false, false⟩ = some r2 ∧
      r2.lst = ⟨[(("w2", 4), false)], 2, ⟨some (1, true), false, false⟩⟩ ∧
      r2.isRefreshing = false ∧ r2.pending = false ∧
      ((some ⟨5, 1⟩ = some (⟨1, 77⟩ : StreakRecord) ∧ r2.storage = none) ∨
        (∃ (n : Nat) (p : Bool),
          (some ⟨5, 1⟩ : Option StreakRecord) = some ⟨5, n⟩ ∧
          r2.storage = some ⟨5, n⟩ ∧
          (some (1, true) : Option (Nat × Bool)) = some (n, p) ∧
          false = false ∧ false = false)) ∧
      ((true : Bool) = true → (some "w2").isSome = true → 0 + 1 ≤ 2) := by
  refine ⟨rfl, ?_⟩
  have hmain := updateFunc_recomputes_ignores_store ⟨true, some "w2"⟩
    (netOfPosts [5]) 1 5 5
    ⟨⟨[], 0, ⟨none, false, false⟩⟩, some ⟨1, 77⟩, false, false⟩
    (some ⟨1, 77⟩) none
    ⟨⟨[(("w2", 4), false)], 2, ⟨some (1, true), false, false⟩⟩,
      some ⟨5, 1⟩, false, false⟩ rfl
  exact hmain

end Bluestreak
